import Mathlib

/-!
Verification of the coordinate/interaction core of `react-multi-crop-image`
(`src/components/MultiCrops.tsx`), shallowly embedded in Lean.

Pixel coordinates and event deltas are JavaScript numbers; all the claims under
study involve only exact arithmetic (min, max, abs, division, rounding), so they
are modelled as rationals.  The one place where IEEE special values matter — the
scale computation `naturalWidth / displayedWidth` when the displayed size is
zero — is modelled by `JsNum`, which makes the Infinity/NaN outcomes explicit.
-/

/-- The crop-rectangle record of `MultiCrops.tsx` (`interface Coordinate`):
display-space geometry plus a string id.  The reserved id `"temp"` marks the
sentinel rectangle of an in-progress draw gesture. -/
structure Coordinate where
  x : ℚ
  y : ℚ
  width : ℚ
  height : ℚ
  id : String
  deriving DecidableEq, Repr

/-- The sentinel rectangle built by `updateDrawingCoordinates` from the draw
anchor (`startPoint`) and the current pointer position: componentwise `min` for
the origin, componentwise absolute difference for the size, id `"temp"`. -/
def newCrop (startPoint current : ℚ × ℚ) : Coordinate :=
  { x := min startPoint.1 current.1
    y := min startPoint.2 current.2
    width := |current.1 - startPoint.1|
    height := |current.2 - startPoint.2|
    id := "temp" }

/-- The collection update performed by `updateDrawingCoordinates`:
`[...prev.filter(c => c.id !== 'temp'), newCrop]`. -/
def updateDrawingCoordinates (startPoint current : ℚ × ℚ)
    (prev : List Coordinate) : List Coordinate :=
  prev.filter (fun c => decide (c.id ≠ "temp")) ++ [newCrop startPoint current]

/-- The collection update performed by `handleMouseUp`: every sufficiently large
sentinel gets the freshly generated id `gen` (the code draws it from
`Math.random().toString(36).substr(2, 9)`); any remaining sentinel (necessarily
undersized) is filtered out. -/
def handleMouseUpCoords (gen : String) (prev : List Coordinate) : List Coordinate :=
  (prev.map (fun c =>
      if c.id = "temp" ∧ 10 ≤ c.width ∧ 10 ≤ c.height then { c with id := gen } else c)).filter
    (fun c => decide (c.id ≠ "temp" ∨ (10 ≤ c.width ∧ 10 ≤ c.height)))

/-- First half of `deleteCrop`: `prev.filter(coord => coord.id !== id)` on the
rectangle collection. -/
def deleteCropCoords (tid : String) (prev : List Coordinate) : List Coordinate :=
  prev.filter (fun c => decide (c.id ≠ tid))

/-- Second half of `deleteCrop`:
`prev.filter((_, index) => coordinates[index].id !== id)` on the exported-image
list.  The JS callback reads `coordinates[index].id`; when `index` is beyond the
collection, `coordinates[index]` is `undefined` and the `.id` access throws,
modelled by `none`.  The recursion walks the collection and the exported list in
lockstep, which is exactly the index pairing of the JS filter. -/
def deleteImagesAux {β : Type} (tid : String) :
    List Coordinate → List β → Option (List β)
  | _, [] => some []
  | [], _ :: _ => none
  | c :: cs, img :: rest =>
    (deleteImagesAux tid cs rest).map
      (fun tail => if c.id ≠ tid then img :: tail else tail)

/-- `deleteCrop`'s update of the exported-image list, fallible as in the source
(see `deleteImagesAux`). -/
def deleteCropImages {β : Type} (coords : List Coordinate) (tid : String)
    (imgs : List β) : Option (List β) :=
  deleteImagesAux tid coords imgs

/-- A JavaScript number outcome: finite, ±Infinity, or NaN.  Only the division
performed by the scale effect needs the special values. -/
inductive JsNum where
  | fin : ℚ → JsNum
  | posInf : JsNum
  | negInf : JsNum
  | nan : JsNum
  deriving DecidableEq, Repr

/-- JavaScript division of two finite numbers: `a / 0` is `NaN` when `a = 0`,
`±Infinity` otherwise; finite quotient when the divisor is nonzero. -/
def jsDiv (a b : ℚ) : JsNum :=
  if b = 0 then
    if a = 0 then JsNum.nan else if 0 < a then JsNum.posInf else JsNum.negInf
  else JsNum.fin (a / b)

/-- The scale effect of `MultiCrops.tsx` (the `useEffect` keyed on `imageUrl`):
`setScale({ x: naturalWidth / displayedWidth, y: naturalHeight / displayedHeight })`,
with JavaScript division semantics. -/
def computeScale (naturalWidth naturalHeight displayedWidth displayedHeight : ℚ) :
    JsNum × JsNum :=
  (jsDiv naturalWidth displayedWidth, jsDiv naturalHeight displayedHeight)

/-- The source region passed to `ctx.drawImage` for one rectangle, in natural
(source-image) pixels. -/
structure SrcRegion where
  sx : ℤ
  sy : ℤ
  sw : ℤ
  sh : ℤ
  deriving DecidableEq, Repr

/-- The geometry mapping inside `debouncedSaveCroppedImages` for one rectangle:
origin and size are scaled per axis and rounded
(`Math.round(coord.x * scale.x)`, …). -/
def srcRegion (scaleX scaleY : ℚ) (c : Coordinate) : SrcRegion :=
  { sx := round (c.x * scaleX)
    sy := round (c.y * scaleY)
    sw := round (c.width * scaleX)
    sh := round (c.height * scaleY) }

/-- One extraction pass of `debouncedSaveCroppedImages`: filter to rectangles
with `width >= 10 && height >= 10`, then map each to its source region (the
bitmap content is determined by the region, which is what we track). -/
def saveCroppedImages (scaleX scaleY : ℚ) (coords : List Coordinate) :
    List SrcRegion :=
  (coords.filter (fun c => decide (10 ≤ c.width ∧ 10 ≤ c.height))).map
    (srcRegion scaleX scaleY)

/-- The `draggable.onmove` geometry update for the rectangle being dragged:
`newX = Math.max(0, Math.min(coordinate.x + dx, imgRect.width - coordinate.width))`
and likewise for `y`; width, height and id are not touched. -/
def dragMove (c : Coordinate) (dx dy imgW imgH : ℚ) : Coordinate :=
  { c with
    x := max 0 (min (c.x + dx) (imgW - c.width))
    y := max 0 (min (c.y + dy) (imgH - c.height)) }

/-- The `resizable.onmove` geometry update: the event supplies the tentative
rect size (`event.rect.width/height`) and the origin deltas
(`event.deltaRect.left/top`); the new size is clamped against the image bounds
measured from the rectangle's current origin, and the whole update is dropped
when a clamped dimension falls below 10. -/
def resizeMove (c : Coordinate) (rectW rectH dLeft dTop imgW imgH : ℚ) :
    Coordinate :=
  let newWidth := min rectW (imgW - c.x)
  let newHeight := min rectH (imgH - c.y)
  if 10 ≤ newWidth ∧ 10 ≤ newHeight then
    { c with x := c.x + dLeft, y := c.y + dTop, width := newWidth, height := newHeight }
  else c

/-- `updateCoordinate`: apply a geometry patch `f` to the rectangle with id
`tid`, leaving every other rectangle untouched
(`prev.map(coord => coord.id === id ? { ...coord, ...newCoordinate } : coord)`). -/
def updateCoordinate (tid : String) (f : Coordinate → Coordinate)
    (prev : List Coordinate) : List Coordinate :=
  prev.map (fun c => if c.id = tid then f c else c)

/-- The sentinel-rectangle invariant of the collection: at most one rectangle
carries the reserved id `"temp"`, and every rectangle other than the last one
(i.e. every element of `dropLast`) is not the sentinel — so a sentinel, when
present, sits at the end (top z-order). -/
def tempOk (l : List Coordinate) : Prop :=
  l.countP (fun c => decide (c.id = "temp")) ≤ 1 ∧
  ∀ c ∈ l.dropLast, c.id ≠ "temp"

/-- Modelled from the spec: the trailing-edge debounce wrapping
`debouncedSaveCroppedImages` comes from lodash's `debounce(fn, 500)`, which is
not part of this repository's sources.  Per the spec, each call restarts the
full delay `d`; a call's payload executes only if no further call arrives
within `d` after it.  Given the timestamped call sequence (times
non-decreasing), this returns the payloads that actually execute, in order. -/
def debounceFires {α : Type} (d : ℚ) : List (ℚ × α) → List α
  | [] => []
  | [c] => [c.2]
  | c₁ :: c₂ :: rest =>
    if c₁.1 + d < c₂.1 then c₁.2 :: debounceFires d (c₂ :: rest)
    else debounceFires d (c₂ :: rest)

/-- Every call of the sequence arrives within the debounce delay `d` of its
predecessor, i.e. before the pending timer can fire: one burst. -/
def withinWindow {α : Type} (d : ℚ) : List (ℚ × α) → Bool
  | [] => true
  | [_] => true
  | c₁ :: c₂ :: rest =>
    decide (c₂.1 ≤ c₁.1 + d) && withinWindow d (c₂ :: rest)

/-- Drawing from (10,10) to (110,160) yields the {10,10,100,150} sentinel. -/
example : newCrop (10, 10) (110, 160) = ⟨10, 10, 100, 150, "temp"⟩ := by
  simp only [newCrop, Coordinate.mk.injEq]
  norm_num

example : srcRegion 2 2 ⟨100, 50, 200, 100, "r1"⟩ = ⟨200, 100, 400, 200⟩ := by
  simp only [srcRegion, SrcRegion.mk.injEq]
  norm_num

/-- C9: the sentinel rectangle computed while drawing has the componentwise
minimum of the two points as its origin and the componentwise absolute
difference as its size, and is therefore symmetric in its two arguments. -/
theorem newCrop_min_abs_symm (p₀ p₁ : ℚ × ℚ) :
    (newCrop p₀ p₁).x = min p₀.1 p₁.1 ∧
    (newCrop p₀ p₁).y = min p₀.2 p₁.2 ∧
    (newCrop p₀ p₁).width = |p₁.1 - p₀.1| ∧
    (newCrop p₀ p₁).height = |p₁.2 - p₀.2| ∧
    newCrop p₀ p₁ = newCrop p₁ p₀ := by
  refine ⟨rfl, rfl, rfl, rfl, ?_⟩
  simp only [newCrop, min_comm, abs_sub_comm]

/-- C5: a drag move sets the origin to the per-axis clamp
`clamp(x+dx, 0, W - width)` (resp. `clamp(y+dy, 0, H - height)`), leaves width,
height and id unchanged, and — whenever the rectangle fits in the displayed
image — the result lies fully inside the image on that axis. -/
theorem dragMove_clamps (c : Coordinate) (dx dy imgW imgH : ℚ) :
    (dragMove c dx dy imgW imgH).x = max 0 (min (c.x + dx) (imgW - c.width)) ∧
    (dragMove c dx dy imgW imgH).y = max 0 (min (c.y + dy) (imgH - c.height)) ∧
    (dragMove c dx dy imgW imgH).width = c.width ∧
    (dragMove c dx dy imgW imgH).height = c.height ∧
    (dragMove c dx dy imgW imgH).id = c.id ∧
    (c.width ≤ imgW →
      0 ≤ (dragMove c dx dy imgW imgH).x ∧
      (dragMove c dx dy imgW imgH).x + (dragMove c dx dy imgW imgH).width ≤ imgW) ∧
    (c.height ≤ imgH →
      0 ≤ (dragMove c dx dy imgW imgH).y ∧
      (dragMove c dx dy imgW imgH).y + (dragMove c dx dy imgW imgH).height ≤ imgH) := by
  refine ⟨rfl, rfl, rfl, rfl, rfl, fun hw => ⟨le_max_left _ _, ?_⟩,
    fun hh => ⟨le_max_left _ _, ?_⟩⟩
  · have hx : max 0 (min (c.x + dx) (imgW - c.width)) ≤ imgW - c.width :=
      max_le (by linarith) (min_le_right _ _)
    show max 0 (min (c.x + dx) (imgW - c.width)) + c.width ≤ imgW
    linarith
  · have hy : max 0 (min (c.y + dy) (imgH - c.height)) ≤ imgH - c.height :=
      max_le (by linarith) (min_le_right _ _)
    show max 0 (min (c.y + dy) (imgH - c.height)) + c.height ≤ imgH
    linarith

/-- C5 witness: the containment conclusions of `dragMove_clamps` at a concrete
drag: rectangle {10,10,30,30} dragged by (85, -20) inside a 100×100 image. -/
theorem dragMove_clamps_witness :
    (30 : ℚ) ≤ 100 ∧
    0 ≤ (dragMove ⟨10, 10, 30, 30, "a"⟩ 85 (-20) 100 100).x ∧
    (dragMove ⟨10, 10, 30, 30, "a"⟩ 85 (-20) 100 100).x +
      (dragMove ⟨10, 10, 30, 30, "a"⟩ 85 (-20) 100 100).width ≤ 100 := by
  refine ⟨by norm_num, ?_, ?_⟩
  · exact ((dragMove_clamps ⟨10, 10, 30, 30, "a"⟩ 85 (-20) 100 100).2.2.2.2.2.1
      (by norm_num)).1
  · exact ((dragMove_clamps ⟨10, 10, 30, 30, "a"⟩ 85 (-20) 100 100).2.2.2.2.2.1
      (by norm_num)).2

/-- C4 counterexample: rectangle {5,5,20,20} in a 100×100 image, left edge
dragged 10px leftwards (`event.rect = 30×20`, `event.deltaRect.left = -10`):
the update is applied (both clamped dimensions are ≥ 10) and the resulting
rectangle has `x = -5 < 0`, extending past the left image bound. -/
theorem resizeMove_escapes_bounds :
    resizeMove ⟨5, 5, 20, 20, "a"⟩ 30 20 (-10) 0 100 100 = ⟨-5, 5, 30, 20, "a"⟩ ∧
    (resizeMove ⟨5, 5, 20, 20, "a"⟩ 30 20 (-10) 0 100 100).x < 0 := by
  have h : resizeMove ⟨5, 5, 20, 20, "a"⟩ 30 20 (-10) 0 100 100 = ⟨-5, 5, 30, 20, "a"⟩ := by
    simp only [resizeMove]
    rw [if_pos (by constructor <;> norm_num)]
    simp only [Coordinate.mk.injEq]
    norm_num
  refine ⟨h, ?_⟩
  rw [h]
  norm_num

/-- C4 (amended): a resize move is rejected outright (no geometry change) when
either dimension, clamped against the image bounds measured from the
rectangle's pre-resize origin, falls below 10; otherwise the new width and
height are those clamped values (so they never exceed `imgW - x_old` /
`imgH - y_old`) while the origin moves by the reported edge deltas unclamped. -/
theorem resizeMove_clamped (c : Coordinate) (rectW rectH dLeft dTop imgW imgH : ℚ) :
    (¬ (10 ≤ min rectW (imgW - c.x) ∧ 10 ≤ min rectH (imgH - c.y)) →
      resizeMove c rectW rectH dLeft dTop imgW imgH = c) ∧
    (10 ≤ min rectW (imgW - c.x) → 10 ≤ min rectH (imgH - c.y) →
      resizeMove c rectW rectH dLeft dTop imgW imgH =
        ⟨c.x + dLeft, c.y + dTop, min rectW (imgW - c.x), min rectH (imgH - c.y), c.id⟩ ∧
      (resizeMove c rectW rectH dLeft dTop imgW imgH).width ≤ imgW - c.x ∧
      (resizeMove c rectW rectH dLeft dTop imgW imgH).height ≤ imgH - c.y) := by
  constructor
  · intro h
    simp only [resizeMove]
    rw [if_neg h]
  · intro h1 h2
    have he : resizeMove c rectW rectH dLeft dTop imgW imgH =
        ⟨c.x + dLeft, c.y + dTop, min rectW (imgW - c.x), min rectH (imgH - c.y), c.id⟩ := by
      simp only [resizeMove]
      rw [if_pos ⟨h1, h2⟩]
    refine ⟨he, ?_, ?_⟩
    · rw [he]
      exact min_le_right _ _
    · rw [he]
      exact min_le_right _ _

/-- C4 witness: an accepted resize of {0,0,20,20} to 30×30 in a 100×100 image,
through `resizeMove_clamped`. -/
theorem resizeMove_clamped_witness :
    (10 : ℚ) ≤ min 30 (100 - (0:ℚ)) ∧
    resizeMove ⟨0, 0, 20, 20, "a"⟩ 30 30 0 0 100 100 = ⟨0, 0, 30, 30, "a"⟩ := by
  have h := (resizeMove_clamped ⟨0, 0, 20, 20, "a"⟩ 30 30 0 0 100 100).2
    (by norm_num) (by norm_num)
  refine ⟨by norm_num, ?_⟩
  rw [h.1]
  simp only [Coordinate.mk.injEq]
  norm_num

/-- C6: with natural size 2000×1000 and a zero displayed size (image not yet
laid out), the scale effect computes `2000 / 0` and `1000 / 0`, i.e. sets the
scale to (Infinity, Infinity) — not the neutral (1, 1) the specification
requires. -/
theorem computeScale_zero_displayed :
    computeScale 2000 1000 0 0 = (JsNum.posInf, JsNum.posInf) ∧
    computeScale 2000 1000 0 0 ≠ (JsNum.fin 1, JsNum.fin 1) := by
  have h : computeScale 2000 1000 0 0 = (JsNum.posInf, JsNum.posInf) := by
    simp only [computeScale, jsDiv]
    norm_num
  refine ⟨h, ?_⟩
  rw [h]
  simp

/-- C3: one extraction pass yields exactly one source region per rectangle
passing the `width >= 10 && height >= 10` filter, in the collection's order,
each computed by per-axis scaling and rounding; with natural 2000×1000 over
displayed 1000×500 the scale is (2,2), and the rectangle {100,50,200,100}
extracts the natural-pixel region {200,100,400,200} while an undersized
{0,0,5,5} rectangle contributes nothing. -/
theorem saveCroppedImages_ordered (scaleX scaleY : ℚ) (coords : List Coordinate) :
    (saveCroppedImages scaleX scaleY coords).length =
      (coords.filter (fun c => decide (10 ≤ c.width ∧ 10 ≤ c.height))).length ∧
    (∀ i : ℕ, (saveCroppedImages scaleX scaleY coords).get? i =
      ((coords.filter (fun c => decide (10 ≤ c.width ∧ 10 ≤ c.height))).get? i).map
        (srcRegion scaleX scaleY)) ∧
    computeScale 2000 1000 1000 500 = (JsNum.fin 2, JsNum.fin 2) ∧
    saveCroppedImages 2 2 [⟨100, 50, 200, 100, "r1"⟩, ⟨0, 0, 5, 5, "r2"⟩] =
      [⟨200, 100, 400, 200⟩] := by
  refine ⟨?_, ?_, ?_, ?_⟩
  · simp [saveCroppedImages]
  · intro i
    simp [saveCroppedImages]
  · simp only [computeScale, jsDiv]
    norm_num
  · have hf : ([⟨100, 50, 200, 100, "r1"⟩, ⟨0, 0, 5, 5, "r2"⟩] :
        List Coordinate).filter (fun c => decide (10 ≤ c.width ∧ 10 ≤ c.height)) =
        [⟨100, 50, 200, 100, "r1"⟩] := by
      simp only [List.filter]
      norm_num
    simp only [saveCroppedImages, hf, List.map_cons, List.map_nil]
    simp only [srcRegion, SrcRegion.mk.injEq]
    norm_num

/-- If no rectangle in `cs` carries the deleted id, `deleteCrop`'s image filter
keeps every exported entry (provided the collection is at least as long). -/
lemma deleteImagesAux_keep_all {β : Type} (tid : String) (cs : List Coordinate) :
    ∀ bs : List β, bs.length ≤ cs.length → (∀ c ∈ cs, c.id ≠ tid) →
      deleteImagesAux tid cs bs = some bs := by
  induction cs with
  | nil =>
    intro bs h _
    cases bs with
    | nil => rfl
    | cons b bs => simp at h
  | cons c cs ih =>
    intro bs h hid
    cases bs with
    | nil => rfl
    | cons b bs =>
      have hrec : deleteImagesAux tid cs bs = some bs :=
        ih bs (by simpa using h) (fun x hx => hid x (List.mem_cons_of_mem _ hx))
      simp [deleteImagesAux, hrec, hid c (List.mem_cons_self _ _)]

/-- C1: when the exported-image list is index-aligned with the rectangle
collection (same length) and ids are unique, deleting by the id of the
rectangle at index `k` removes exactly index `k` from both lists, preserving
the relative order of everything else. -/
theorem deleteCrop_sync {β : Type} (coords : List Coordinate) :
    ∀ (imgs : List β) (k : ℕ) (hk : k < coords.length),
      imgs.length = coords.length → (coords.map Coordinate.id).Nodup →
      deleteCropCoords ((coords.get ⟨k, hk⟩).id) coords = coords.eraseIdx k ∧
      deleteCropImages coords ((coords.get ⟨k, hk⟩).id) imgs =
        some (imgs.eraseIdx k) := by
  induction coords with
  | nil =>
    intro imgs k hk
    simp at hk
  | cons c cs ih =>
    intro imgs k hk hlen hnd
    cases imgs with
    | nil => simp at hlen
    | cons b bs =>
      have hlen' : bs.length = cs.length := by simpa using hlen
      have hcid : c.id ∉ cs.map Coordinate.id := (List.nodup_cons.mp hnd).1
      have hnd' : (cs.map Coordinate.id).Nodup := (List.nodup_cons.mp hnd).2
      cases k with
      | zero =>
        have hcs : ∀ x ∈ cs, x.id ≠ c.id := by
          intro x hx heq
          exact hcid (heq ▸ List.mem_map_of_mem Coordinate.id hx)
        constructor
        · show (c :: cs).filter (fun x => decide (x.id ≠ c.id)) = cs
          rw [List.filter_cons, if_neg (by simp)]
          exact List.filter_eq_self.mpr (fun a ha => by simpa using hcs a ha)
        · show deleteImagesAux c.id (c :: cs) (b :: bs) = some bs
          have hall := deleteImagesAux_keep_all c.id cs bs (le_of_eq hlen') hcs
          simp [deleteImagesAux, hall]
      | succ k =>
        have hk' : k < cs.length := Nat.lt_of_succ_lt_succ hk
        have htmem : (cs.get ⟨k, hk'⟩).id ∈ cs.map Coordinate.id :=
          List.mem_map_of_mem Coordinate.id (cs.get_mem k hk')
        have hcne : c.id ≠ (cs.get ⟨k, hk'⟩).id := fun h => hcid (h ▸ htmem)
        obtain ⟨ihc, ihi⟩ := ih bs k hk' hlen' hnd'
        constructor
        · show (c :: cs).filter (fun x => decide (x.id ≠ (cs.get ⟨k, hk'⟩).id)) =
            c :: cs.eraseIdx k
          rw [List.filter_cons, if_pos (by simpa using hcne)]
          exact congrArg (List.cons c) ihc
        · show deleteImagesAux (cs.get ⟨k, hk'⟩).id (c :: cs) (b :: bs) =
            some (b :: bs.eraseIdx k)
          have hrec : deleteImagesAux (cs.get ⟨k, hk'⟩).id cs bs =
            some (bs.eraseIdx k) := ihi
          simp only [deleteImagesAux, Option.map_eq_some']
          exact ⟨bs.eraseIdx k, hrec, if_pos hcne⟩

/-- C1 witness: deleting id "b" (index 1) from a three-rectangle collection
with a three-entry exported list removes exactly index 1 from each. -/
theorem deleteCrop_sync_witness :
    deleteCropCoords "b"
        [⟨0, 0, 20, 20, "a"⟩, ⟨1, 1, 30, 30, "b"⟩, ⟨2, 2, 40, 40, "c"⟩] =
      [⟨0, 0, 20, 20, "a"⟩, ⟨2, 2, 40, 40, "c"⟩] ∧
    deleteCropImages
        [⟨0, 0, 20, 20, "a"⟩, ⟨1, 1, 30, 30, "b"⟩, ⟨2, 2, 40, 40, "c"⟩] "b"
        ["i0", "i1", "i2"] = some ["i0", "i2"] := by
  have h := deleteCrop_sync (β := String)
    [⟨0, 0, 20, 20, "a"⟩, ⟨1, 1, 30, 30, "b"⟩, ⟨2, 2, 40, 40, "c"⟩]
    ["i0", "i1", "i2"] 1 (by norm_num) rfl (by simp)
  exact ⟨h.1, h.2⟩

/-- C10: `deleteCrop`'s exported-list filter faults (reads `.id` off
`undefined`) exactly when the exported list is longer than the rectangle
collection; it is total whenever the collection is at least as long. -/
theorem deleteCropImages_none_iff {β : Type} (coords : List Coordinate)
    (tid : String) (imgs : List β) :
    deleteCropImages coords tid imgs = none ↔ coords.length < imgs.length := by
  induction coords generalizing imgs with
  | nil =>
    cases imgs with
    | nil => simp [deleteCropImages, deleteImagesAux]
    | cons b bs => simp [deleteCropImages, deleteImagesAux]
  | cons c cs ih =>
    cases imgs with
    | nil => simp [deleteCropImages, deleteImagesAux]
    | cons b bs =>
      have := ih bs
      simp only [deleteCropImages] at this ⊢
      simp only [deleteImagesAux, Option.map_eq_none', this, List.length_cons]
      omega

/-- `handleMouseUp`'s renaming map leaves a list without sentinels unchanged. -/
lemma commitMap_eq_self (gen : String) (l : List Coordinate)
    (h : ∀ c ∈ l, c.id ≠ "temp") :
    l.map (fun c => if c.id = "temp" ∧ 10 ≤ c.width ∧ 10 ≤ c.height
      then { c with id := gen } else c) = l := by
  induction l with
  | nil => rfl
  | cons c cs ih =>
    have h1 : c.id ≠ "temp" := h c (List.mem_cons_self _ _)
    have h2 := ih (fun x hx => h x (List.mem_cons_of_mem _ hx))
    simp only [List.map_cons, h2]
    rw [if_neg (fun hc => h1 hc.1)]

/-- C2: at pointer-up, with the collection being the committed rectangles
followed by the sentinel, and `gen` the freshly generated id (fresh: not the
sentinel id and not an id already in the collection): a sentinel of size at
least 10×10 is committed in place — same geometry, id `gen` — appended after
the unchanged committed rectangles; an undersized sentinel is discarded,
leaving exactly the committed rectangles. -/
theorem handleMouseUp_commit (committed : List Coordinate) (s : Coordinate)
    (gen : String) (hs : s.id = "temp") (hc : ∀ c ∈ committed, c.id ≠ "temp")
    (hg : gen ≠ "temp") (hfresh : gen ∉ committed.map Coordinate.id) :
    (10 ≤ s.width ∧ 10 ≤ s.height →
      handleMouseUpCoords gen (committed ++ [s]) =
        committed ++ [{ s with id := gen }] ∧
      ({ s with id := gen } : Coordinate).id ≠ "temp" ∧
      ({ s with id := gen } : Coordinate).id ∉ committed.map Coordinate.id) ∧
    (¬ (10 ≤ s.width ∧ 10 ≤ s.height) →
      handleMouseUpCoords gen (committed ++ [s]) = committed) := by
  have hfilter : committed.filter
      (fun c => decide (c.id ≠ "temp" ∨ (10 ≤ c.width ∧ 10 ≤ c.height))) =
      committed :=
    List.filter_eq_self.mpr (fun a ha => by simp [hc a ha])
  constructor
  · intro hbig
    refine ⟨?_, hg, hfresh⟩
    simp only [handleMouseUpCoords, List.map_append,
      commitMap_eq_self gen committed hc, List.map_cons, List.map_nil,
      List.filter_append, hfilter]
    rw [if_pos ⟨hs, hbig⟩, List.filter_cons, if_pos (by simp [hg]),
      List.filter_nil]
  · intro hsmall
    simp only [handleMouseUpCoords, List.map_append,
      commitMap_eq_self gen committed hc, List.map_cons, List.map_nil,
      List.filter_append, hfilter]
    rw [if_neg (fun hcon => hsmall hcon.2), List.filter_cons,
      if_neg (by simp [hs, hsmall]), List.filter_nil, List.append_nil]

/-- C2 witness: over one committed rectangle, the 100×150 sentinel drawn from
(10,10) to (110,160) is committed with the fresh id at the end, and a 5×5
sentinel is discarded. -/
theorem handleMouseUp_commit_witness :
    handleMouseUpCoords "k7f2q9x1m"
        [⟨0, 0, 20, 20, "a"⟩, ⟨10, 10, 100, 150, "temp"⟩] =
      [⟨0, 0, 20, 20, "a"⟩, ⟨10, 10, 100, 150, "k7f2q9x1m"⟩] ∧
    handleMouseUpCoords "k7f2q9x1m" [⟨0, 0, 20, 20, "a"⟩, ⟨0, 0, 5, 5, "temp"⟩] =
      [⟨0, 0, 20, 20, "a"⟩] := by
  constructor
  · exact ((handleMouseUp_commit [⟨0, 0, 20, 20, "a"⟩] ⟨10, 10, 100, 150, "temp"⟩
      "k7f2q9x1m" rfl (by simp) (by simp) (by simp)).1 (by norm_num)).1
  · exact (handleMouseUp_commit [⟨0, 0, 20, 20, "a"⟩] ⟨0, 0, 5, 5, "temp"⟩
      "k7f2q9x1m" rfl (by simp) (by simp) (by simp)).2 (by norm_num)

/-- `tempOk` follows from its positional half: when every non-final rectangle
is not the sentinel, the sentinel count is automatically at most one. -/
lemma tempOk_of_dropLast (l : List Coordinate)
    (h : ∀ c ∈ l.dropLast, c.id ≠ "temp") : tempOk l := by
  refine ⟨?_, h⟩
  rcases List.eq_nil_or_concat l with rfl | ⟨xs, t, rfl⟩
  · simp
  · rw [List.concat_eq_append] at h ⊢
    rw [List.dropLast_concat] at h
    rw [List.countP_append]
    have h0 : xs.countP (fun c => decide (c.id = "temp")) = 0 :=
      List.countP_eq_zero.mpr (fun a ha => by simp [h a ha])
    have h1 : [t].countP (fun c => decide (c.id = "temp")) ≤ 1 := by
      by_cases ht : t.id = "temp" <;> simp [List.countP_cons, ht]
    omega

/-- A list with no sentinel at all satisfies `tempOk`. -/
lemma tempOk_of_no_temp (l : List Coordinate)
    (h : ∀ c ∈ l, c.id ≠ "temp") : tempOk l :=
  tempOk_of_dropLast l (fun c hc => h c (List.dropLast_subset l hc))

/-- C8: every collection operation preserves the sentinel invariant: a draw
move re-establishes it outright (all sentinels stripped, one appended last); a
pointer-up leaves no sentinel at all (given a non-sentinel generated id);
`updateCoordinate` with an id-preserving geometry patch — which is what drag
and resize apply, as the last two conjuncts record — preserves it; and
`deleteCrop`'s collection filter preserves it. -/
theorem tempOk_preserved :
    (∀ (startPoint current : ℚ × ℚ) (prev : List Coordinate),
      tempOk (updateDrawingCoordinates startPoint current prev)) ∧
    (∀ (gen : String) (prev : List Coordinate), gen ≠ "temp" →
      tempOk (handleMouseUpCoords gen prev)) ∧
    (∀ (tid : String) (f : Coordinate → Coordinate) (prev : List Coordinate),
      (∀ c, (f c).id = c.id) → tempOk prev →
      tempOk (updateCoordinate tid f prev)) ∧
    (∀ (tid : String) (prev : List Coordinate), tempOk prev →
      tempOk (deleteCropCoords tid prev)) ∧
    (∀ (c : Coordinate) (dx dy imgW imgH : ℚ),
      (dragMove c dx dy imgW imgH).id = c.id) ∧
    (∀ (c : Coordinate) (rectW rectH dLeft dTop imgW imgH : ℚ),
      (resizeMove c rectW rectH dLeft dTop imgW imgH).id = c.id) := by
  refine ⟨?_, ?_, ?_, ?_, ?_, ?_⟩
  · intro sp cur prev
    apply tempOk_of_dropLast
    rw [show updateDrawingCoordinates sp cur prev =
      prev.filter (fun c => decide (c.id ≠ "temp")) ++ [newCrop sp cur] from rfl,
      List.dropLast_concat]
    intro c hc
    simpa using (List.mem_filter.mp hc).2
  · intro gen prev hg
    apply tempOk_of_no_temp
    intro c hc
    simp only [handleMouseUpCoords] at hc
    obtain ⟨hcm, hcp⟩ := List.mem_filter.mp hc
    obtain ⟨c₀, _, hmap⟩ := List.mem_map.mp hcm
    by_cases h₀ : c₀.id = "temp" ∧ 10 ≤ c₀.width ∧ 10 ≤ c₀.height
    · rw [if_pos h₀] at hmap
      rw [← hmap]
      exact hg
    · rw [if_neg h₀] at hmap
      subst hmap
      intro hct
      have hcp' : c₀.id ≠ "temp" ∨ (10 ≤ c₀.width ∧ 10 ≤ c₀.height) := by
        simpa using hcp
      rcases hcp' with hne | hbig
      · exact hne hct
      · exact h₀ ⟨hct, hbig⟩
  · intro tid f prev hf hprev
    apply tempOk_of_dropLast
    rcases List.eq_nil_or_concat prev with rfl | ⟨xs, t, rfl⟩
    · simp [updateCoordinate]
    · rw [List.concat_eq_append] at hprev ⊢
      have hxs : ∀ c ∈ xs, c.id ≠ "temp" := by
        intro c hc
        exact hprev.2 c (by rw [List.dropLast_concat]; exact hc)
      rw [show updateCoordinate tid f (xs ++ [t]) =
        (xs.map (fun c => if c.id = tid then f c else c)) ++
          [if t.id = tid then f t else t] from by
          simp [updateCoordinate], List.dropLast_concat]
      intro c hc
      obtain ⟨c₀, hc₀, hmap⟩ := List.mem_map.mp hc
      have : c.id = c₀.id := by
        rw [← hmap]
        by_cases h₀ : c₀.id = tid
        · rw [if_pos h₀]
          exact hf c₀
        · rw [if_neg h₀]
      rw [this]
      exact hxs c₀ hc₀
  · intro tid prev hprev
    apply tempOk_of_dropLast
    rcases List.eq_nil_or_concat prev with rfl | ⟨xs, t, rfl⟩
    · simp [deleteCropCoords]
    · rw [List.concat_eq_append] at hprev ⊢
      have hxs : ∀ c ∈ xs, c.id ≠ "temp" := by
        intro c hc
        exact hprev.2 c (by rw [List.dropLast_concat]; exact hc)
      rw [show deleteCropCoords tid (xs ++ [t]) =
        xs.filter (fun c => decide (c.id ≠ tid)) ++
          [t].filter (fun c => decide (c.id ≠ tid)) from List.filter_append ..]
      intro c hc
      have hsub : c ∈ xs.filter (fun c => decide (c.id ≠ tid)) ++
          [t].filter (fun c => decide (c.id ≠ tid)) :=
        List.dropLast_subset _ hc
      rcases List.mem_append.mp hsub with hl | hr
      · exact hxs c (List.mem_filter.mp hl).1
      · -- c is t, the final element; show it cannot sit in dropLast unless xs' keeps it
        -- handle via the structure of the filtered final singleton
        rcases List.mem_filter.mp hr with ⟨hmem, _⟩
        have hct : c = t := by simpa using hmem
        rw [hct]
        rw [hct] at hc
        -- if t survives the filter, the result is xs' ++ [t] and dropLast is xs'
        by_cases hkeep : (decide (t.id ≠ tid)) = true
        · rw [List.filter_cons, if_pos hkeep, List.filter_nil, List.dropLast_concat] at hc
          exact hxs t (List.mem_filter.mp hc).1
        · rw [List.filter_cons, if_neg hkeep, List.filter_nil] at hr
          simp at hr
  · intro c dx dy imgW imgH
    rfl
  · intro c rectW rectH dLeft dTop imgW imgH
    simp only [resizeMove]
    by_cases h : 10 ≤ min rectW (imgW - c.x) ∧ 10 ≤ min rectH (imgH - c.y)
    · rw [if_pos h]
    · rw [if_neg h]

/-- C8 witness: the invariant conclusions of `tempOk_preserved` at concrete
inputs: a pointer-up over a drawn sentinel, a geometry patch, and a delete. -/
theorem tempOk_preserved_witness :
    tempOk (handleMouseUpCoords "z9z9z9z9z" [⟨0, 0, 40, 40, "temp"⟩]) ∧
    tempOk (updateCoordinate "a" (fun c => { c with x := 7 })
      [⟨0, 0, 20, 20, "a"⟩, ⟨1, 1, 30, 30, "temp"⟩]) ∧
    tempOk (deleteCropCoords "a" [⟨0, 0, 20, 20, "a"⟩, ⟨1, 1, 30, 30, "temp"⟩]) := by
  refine ⟨tempOk_preserved.2.1 "z9z9z9z9z" _ (by simp),
    tempOk_preserved.2.2.1 "a" _ _ (fun c => rfl) ?_,
    tempOk_preserved.2.2.2.1 "a" _ ?_⟩
  · exact ⟨by simp [List.countP_cons], by simp⟩
  · exact ⟨by simp [List.countP_cons], by simp⟩

/-- C7: a burst of N ≥ 1 export requests, each arriving within the debounce
delay of its predecessor, triggers exactly one extraction pass, and it carries
the payload (the collection) of the last request; every earlier request of the
burst is discarded, not queued. -/
theorem debounce_single_pass {α : Type} (d : ℚ) (calls : List (ℚ × α))
    (hne : calls ≠ []) (hw : withinWindow d calls = true) :
    debounceFires d calls = [(calls.getLast hne).2] := by
  induction calls with
  | nil => exact absurd rfl hne
  | cons c₁ tl ih =>
    cases tl with
    | nil => rfl
    | cons c₂ rest =>
      have hw' : withinWindow d (c₂ :: rest) = true ∧ c₂.1 ≤ c₁.1 + d := by
        simp only [withinWindow, Bool.and_eq_true, decide_eq_true_eq] at hw
        exact ⟨hw.2, hw.1⟩
      have hnot : ¬ (c₁.1 + d < c₂.1) := not_lt.mpr hw'.2
      have hrec := ih (by simp) hw'.1
      rw [show debounceFires d (c₁ :: c₂ :: rest) =
        if c₁.1 + d < c₂.1 then c₁.2 :: debounceFires d (c₂ :: rest)
        else debounceFires d (c₂ :: rest) from rfl, if_neg hnot, hrec]
      simp [List.getLast_cons]

/-- C7 witness: three requests at t = 0, 100, 200 with a 500 delay fire exactly
once, with the last payload. -/
theorem debounce_single_pass_witness :
    withinWindow 500 [((0 : ℚ), (1 : ℕ)), (100, 2), (200, 3)] = true ∧
    debounceFires 500 [((0 : ℚ), (1 : ℕ)), (100, 2), (200, 3)] = [3] := by
  have hw : withinWindow 500 [((0 : ℚ), (1 : ℕ)), (100, 2), (200, 3)] = true := by
    norm_num [withinWindow]
  refine ⟨hw, ?_⟩
  have h := debounce_single_pass 500 [((0 : ℚ), (1 : ℕ)), (100, 2), (200, 3)]
    (by simp) hw
  simpa [List.getLast] using h
